import Mathlib

/- Verification of the ndwapp-web e-paper photo-frame companion application.

   The development shallowly embeds the two core source files:
   - the image utilities bundled with `Gallery.tsx` (palette quantizer,
     bit packer of `processImage`, `sanitizeFilename`), and
   - `bleService.ts` (chunked upload with retry/backoff/cancel, command
     timeout, the promise-chain operation queue) together with the
     disconnect handling of `useBLE.ts`.

   JavaScript numbers are embedded as `Nat`/`ℚ`; `Uint8Array` buffers as
   functions `Nat → Nat` or `List Nat`; promises as `Except` values with
   explicit event traces. -/

namespace NdwApp

/-- `EPD_WIDTH = 800` (Gallery.tsx image utilities). -/
def EPD_WIDTH : Nat := 800

/-- `EPD_HEIGHT = 480` (Gallery.tsx image utilities). -/
def EPD_HEIGHT : Nat := 480

/-- `BUFFER_SIZE = (EPD_WIDTH * EPD_HEIGHT * 2) / 8` (Gallery.tsx image
utilities) — the length of the `binaryData` buffer `processImage` allocates. -/
def BUFFER_SIZE : Nat := (EPD_WIDTH * EPD_HEIGHT * 2) / 8

/-- The 2-bit code `processImage` reads for device pixel `(epdX, epdY)`:
`ditheredColors[srcY * targetW + srcX]` where for vertical orientation
`(srcX, srcY) = (EPD_HEIGHT - 1 - epdY, epdX)` (a 90° clockwise rotation) and
`targetW = EPD_HEIGHT`, while for horizontal `(srcX, srcY) = (epdX, epdY)` and
`targetW = EPD_WIDTH`.  The working grid `ditheredColors` is embedded as a
function from flat index to code value. -/
def deviceCode (dithered : Nat → Nat) (isVertical : Bool) (epdX epdY : Nat) : Nat :=
  let targetW := if isVertical then EPD_HEIGHT else EPD_WIDTH
  let srcX := if isVertical then EPD_HEIGHT - 1 - epdY else epdX
  let srcY := if isVertical then epdX else epdY
  dithered (srcY * targetW + srcX)

/-- One iteration of the packing double loop of `processImage`, at raster
pixel index `p = epdY * EPD_WIDTH + epdX`:
`binaryData[byteIndex] |= color.value << bitPosition` with
`byteIndex = ⌊p / 4⌋` and `bitPosition = (3 - p % 4) * 2`.  The buffer is
embedded as a function from byte index to byte value. -/
def packStep (dithered : Nat → Nat) (isVertical : Bool) (buf : Nat → Nat) (p : Nat) :
    Nat → Nat :=
  fun b =>
    if b = p / 4 then
      buf b ||| (deviceCode dithered isVertical (p % EPD_WIDTH) (p / EPD_WIDTH)) <<<
        ((3 - p % 4) * 2)
    else buf b

/-- The full packing double loop of `processImage` (`epdY` outer, `epdX`
inner, so the flat pixel index runs `0, 1, …, EPD_WIDTH * EPD_HEIGHT - 1` in
order), starting from the all-zero `new Uint8Array(BUFFER_SIZE)`. -/
def packBuf (dithered : Nat → Nat) (isVertical : Bool) : Nat → Nat :=
  (List.range (EPD_WIDTH * EPD_HEIGHT)).foldl (packStep dithered isVertical) (fun _ => 0)

/-- The `binaryData` buffer returned by `processImage`, as the list of its
`BUFFER_SIZE` bytes.  Every write of the packing loop targets byte index
`p / 4 < BUFFER_SIZE`, so reading the first `BUFFER_SIZE` entries of
`packBuf` captures the whole buffer. -/
def processImagePack (dithered : Nat → Nat) (isVertical : Bool) : List Nat :=
  (List.range BUFFER_SIZE).map (packBuf dithered isVertical)

/-- C1 counterexample: the packed buffer of `processImage` does not have
48000 bytes.  `BUFFER_SIZE = (800 * 480 * 2) / 8` evaluates to 96000, not
48000 as the claim (and the spec's arithmetic) states: at the concrete
all-white working grid and horizontal orientation the buffer length is
96000, which differs from 48000. -/
theorem processImage_buffer_not_48000 :
    (processImagePack (fun _ => 0) false).length = 96000 ∧
    (processImagePack (fun _ => 0) false).length ≠ 48000 := by
  constructor <;> simp [processImagePack, BUFFER_SIZE, EPD_WIDTH, EPD_HEIGHT]

/-- C1 (amended): for every source image (embedded as an arbitrary working
grid of codes), orientation and color mode, the packed buffer produced by
`processImage` is exactly `BUFFER_SIZE = (800 * 480 * 2) / 8 = 96000` bytes —
not 48000. -/
theorem processImage_buffer_size (dithered : Nat → Nat) (isVertical : Bool) :
    (processImagePack dithered isVertical).length = BUFFER_SIZE ∧ BUFFER_SIZE = 96000 := by
  constructor
  · simp [processImagePack]
  · rfl

/-- The OR-contribution of pixel `p` to its byte in the packing loop:
`color.value << bitPosition`. -/
def contrib (dithered : Nat → Nat) (isVertical : Bool) (p : Nat) : Nat :=
  (deviceCode dithered isVertical (p % EPD_WIDTH) (p / EPD_WIDTH)) <<< ((3 - p % 4) * 2)

lemma packStep_apply (d : Nat → Nat) (v : Bool) (buf : Nat → Nat) (p b : Nat) :
    packStep d v buf p b = if b = p / 4 then buf b ||| contrib d v p else buf b := rfl

lemma foldl_packStep_eq (d : Nat → Nat) (v : Bool) :
    ∀ (n : Nat) (init : Nat → Nat) (b : Nat),
      ((List.range n).foldl (packStep d v) init) b =
        ((List.range n).filter (fun p => decide (p / 4 = b))).foldl
          (fun acc p => acc ||| contrib d v p) (init b) := by
  intro n
  induction n with
  | zero => intro init b; simp
  | succ n ih =>
    intro init b
    rw [show List.range (n + 1) = List.range n ++ [n] by
      simpa using List.range_succ (n := n)]
    rw [List.foldl_append, List.filter_append, List.foldl_append]
    simp only [List.foldl_cons, List.foldl_nil, List.filter_cons, List.filter_nil,
      decide_eq_true_eq]
    rw [packStep_apply]
    by_cases hb : n / 4 = b
    · rw [if_pos hb.symm, if_pos hb, ih]
      simp
    · rw [if_neg (fun h => hb h.symm), if_neg hb, ih]
      rfl

lemma filter_range_4mul (b : Nat) : ∀ m : Nat,
    (List.range (4 * m)).filter (fun p => decide (p / 4 = b)) =
      if b < m then [4 * b, 4 * b + 1, 4 * b + 2, 4 * b + 3] else [] := by
  intro m
  induction m with
  | zero => simp
  | succ m ih =>
    rw [show 4 * (m + 1) = 4 * m + 4 by ring, List.range_add,
      show List.range 4 = [0, 1, 2, 3] from rfl, List.filter_append, ih]
    have e0 : (4 * m + 0) / 4 = m := by omega
    have e1 : (4 * m + 1) / 4 = m := by omega
    have e2 : (4 * m + 2) / 4 = m := by omega
    have e3 : (4 * m + 3) / 4 = m := by omega
    simp only [List.map_cons, List.map_nil, List.filter_cons, List.filter_nil,
      decide_eq_true_eq, e0, e1, e2, e3]
    by_cases hbm : m = b
    · subst hbm
      rw [if_pos rfl, if_pos rfl, if_pos rfl, if_pos rfl, if_neg (lt_irrefl m),
        if_pos (Nat.lt_succ_self m)]
      simp
    · rw [if_neg hbm, if_neg hbm, if_neg hbm, if_neg hbm]
      by_cases hlt : b < m
      · rw [if_pos hlt, if_pos (by omega)]
        simp
      · rw [if_neg hlt, if_neg (by omega)]
        simp

lemma packBuf_byte (d : Nat → Nat) (v : Bool) (b : Nat) (hb : b < BUFFER_SIZE) :
    packBuf d v b =
      (((contrib d v (4 * b)) ||| contrib d v (4 * b + 1)) ||| contrib d v (4 * b + 2)) |||
        contrib d v (4 * b + 3) := by
  unfold packBuf
  rw [foldl_packStep_eq, show EPD_WIDTH * EPD_HEIGHT = 4 * BUFFER_SIZE from rfl,
    filter_range_4mul, if_pos hb]
  simp

lemma getD_range_map (f : Nat → Nat) (n i : Nat) (h : i < n) :
    ((List.range n).map f).getD i 0 = f i := by
  rw [List.getD_eq_getElem?_getD]
  simp [List.getElem?_map, List.getElem?_range, h]

lemma unpack_or_bits (c0 c1 c2 c3 j : Fin 4) :
    ((((c0.val <<< 6) ||| (c1.val <<< 4)) ||| (c2.val <<< 2)) ||| (c3.val <<< 0)) >>>
        ((3 - j.val) * 2) &&& 3 = [c0.val, c1.val, c2.val, c3.val].getD j.val 0 := by
  revert c0 c1 c2 c3 j
  decide

lemma deviceCode_lt (d : Nat → Nat) (hd : ∀ i, d i < 4) (v : Bool) (a b : Nat) :
    deviceCode d v a b < 4 := by
  unfold deviceCode
  exact hd _

lemma deviceCode_eval (d : Nat → Nat) (v : Bool) (x y : Nat) :
    deviceCode d v x y =
      if v then d (x * 480 + (480 - 1 - y)) else d (y * 800 + x) := by
  cases v <;>
    simp [deviceCode, show EPD_HEIGHT = 480 from rfl, show EPD_WIDTH = 800 from rfl]

/-- The vertical-orientation remap of `processImage`: device pixel `(x, y)`
reads working-grid position `(EPD_HEIGHT - 1 - y, x)` (column, row) — the
90° clockwise rotation. -/
def vertMap (q : Nat × Nat) : Nat × Nat := (EPD_HEIGHT - 1 - q.2, q.1)

/-- C2: packing then unpacking by `code = (byte >> bitShift) & 0b11` with
`byteIndex = p / 4` and `bitShift = (3 - p % 4) * 2` for device pixel index
`p = y * 800 + x` recovers, at every valid device pixel `(x, y)`, the
working-grid code at flat position `(x, y)` for horizontal and at working-grid
position `(480 - 1 - y, x)` (column `480 - 1 - y` of row `x`, flat index
`x * 480 + (480 - 1 - y)`) for vertical; and the vertical mapping is a
bijection between the 800×480 device grid and the 480×800 working grid. -/
theorem pack_roundtrip_and_rotation_bijective
    (dithered : Nat → Nat) (hd : ∀ i, dithered i < 4) (isVertical : Bool)
    (x y : Nat) (hx : x < EPD_WIDTH) (hy : y < EPD_HEIGHT) :
    (((processImagePack dithered isVertical).getD ((y * EPD_WIDTH + x) / 4) 0) >>>
        ((3 - (y * EPD_WIDTH + x) % 4) * 2) &&& 3 =
      if isVertical then dithered (x * EPD_HEIGHT + (EPD_HEIGHT - 1 - y))
      else dithered (y * EPD_WIDTH + x)) ∧
    ((vertMap (x, y)).1 < EPD_HEIGHT ∧ (vertMap (x, y)).2 < EPD_WIDTH) ∧
    (∀ a b : Nat, a < EPD_HEIGHT → b < EPD_WIDTH →
      ∃! q : Nat × Nat, (q.1 < EPD_WIDTH ∧ q.2 < EPD_HEIGHT) ∧ vertMap q = (a, b)) := by
  simp only [show EPD_WIDTH = 800 from rfl, show EPD_HEIGHT = 480 from rfl] at hx hy ⊢
  refine ⟨?_, ?_, ?_⟩
  · have hb : (y * 800 + x) / 4 < BUFFER_SIZE := by
      have hB : BUFFER_SIZE = 96000 := rfl
      omega
    simp only [processImagePack]
    rw [getD_range_map _ _ _ hb, packBuf_byte _ _ _ hb]
    simp only [contrib, show EPD_WIDTH = 800 from rfl]
    set b := (y * 800 + x) / 4 with hbdef
    have hj : (y * 800 + x) % 4 < 4 := by omega
    rw [show (3 - 4 * b % 4) * 2 = 6 by omega,
      show (3 - (4 * b + 1) % 4) * 2 = 4 by omega,
      show (3 - (4 * b + 2) % 4) * 2 = 2 by omega,
      show (3 - (4 * b + 3) % 4) * 2 = 0 by omega]
    have hu := unpack_or_bits
      ⟨_, deviceCode_lt dithered hd isVertical (4 * b % 800) (4 * b / 800)⟩
      ⟨_, deviceCode_lt dithered hd isVertical ((4 * b + 1) % 800) ((4 * b + 1) / 800)⟩
      ⟨_, deviceCode_lt dithered hd isVertical ((4 * b + 2) % 800) ((4 * b + 2) / 800)⟩
      ⟨_, deviceCode_lt dithered hd isVertical ((4 * b + 3) % 800) ((4 * b + 3) / 800)⟩
      ⟨(y * 800 + x) % 4, hj⟩
    simp only [Fin.val_mk] at hu
    rw [hu]
    have hcase : (y * 800 + x) % 4 = 0 ∨ (y * 800 + x) % 4 = 1 ∨
        (y * 800 + x) % 4 = 2 ∨ (y * 800 + x) % 4 = 3 := by omega
    rcases hcase with hc | hc | hc | hc <;> rw [hc] <;>
      simp only [List.getD_cons_zero, List.getD_cons_succ]
    · rw [show 4 * b = y * 800 + x by omega,
        show (y * 800 + x) % 800 = x by omega, show (y * 800 + x) / 800 = y by omega]
      exact deviceCode_eval dithered isVertical x y
    · rw [show 4 * b + 1 = y * 800 + x by omega,
        show (y * 800 + x) % 800 = x by omega, show (y * 800 + x) / 800 = y by omega]
      exact deviceCode_eval dithered isVertical x y
    · rw [show 4 * b + 2 = y * 800 + x by omega,
        show (y * 800 + x) % 800 = x by omega, show (y * 800 + x) / 800 = y by omega]
      exact deviceCode_eval dithered isVertical x y
    · rw [show 4 * b + 3 = y * 800 + x by omega,
        show (y * 800 + x) % 800 = x by omega, show (y * 800 + x) / 800 = y by omega]
      exact deviceCode_eval dithered isVertical x y
  · constructor <;> simp [vertMap, show EPD_HEIGHT = 480 from rfl] <;> omega
  · intro a c ha hc
    refine ⟨(c, 480 - 1 - a), ⟨⟨hc, by omega⟩, ?_⟩, ?_⟩
    · simp [vertMap, show EPD_HEIGHT = 480 from rfl, Prod.ext_iff]
      omega
    · rintro ⟨qx, qy⟩ ⟨⟨hqx, hqy⟩, heq⟩
      simp [vertMap, show EPD_HEIGHT = 480 from rfl, Prod.ext_iff] at heq ⊢
      omega

/-- Witness for C2 at the concrete working grid `fun i => i % 4`, vertical
orientation, device pixel `(x, y) = (3, 2)`. -/
theorem pack_roundtrip_witness :
    (((processImagePack (fun i => i % 4) true).getD ((2 * EPD_WIDTH + 3) / 4) 0) >>>
        ((3 - (2 * EPD_WIDTH + 3) % 4) * 2) &&& 3 =
      if true then (3 * EPD_HEIGHT + (EPD_HEIGHT - 1 - 2)) % 4
      else (2 * EPD_WIDTH + 3) % 4) ∧
    ((vertMap (3, 2)).1 < EPD_HEIGHT ∧ (vertMap (3, 2)).2 < EPD_WIDTH) ∧
    (∀ a b : Nat, a < EPD_HEIGHT → b < EPD_WIDTH →
      ∃! q : Nat × Nat, (q.1 < EPD_WIDTH ∧ q.2 < EPD_HEIGHT) ∧ vertMap q = (a, b)) :=
  pack_roundtrip_and_rotation_bijective (fun i => i % 4)
    (fun i => Nat.mod_lt i (by decide)) true 3 2 (by decide) (by decide)

/-- A palette entry `{r, g, b, value}` (Gallery.tsx).  Channel values are
embedded as exact rationals (JS numbers). -/
structure PaletteColor where
  r : ℚ
  g : ℚ
  b : ℚ
  value : Nat
deriving DecidableEq, Repr

/-- `PALETTE_COLOR` (Gallery.tsx): White, Yellow, Red, Black with codes
`0x00, 0x01, 0x02, 0x03`. -/
def PALETTE_COLOR : List PaletteColor :=
  [⟨255, 255, 255, 0x00⟩, ⟨255, 231, 76, 0x01⟩, ⟨179, 57, 57, 0x02⟩, ⟨0, 0, 0, 0x03⟩]

/-- `PALETTE_BW` (Gallery.tsx): White, Black. -/
def PALETTE_BW : List PaletteColor :=
  [⟨255, 255, 255, 0x00⟩, ⟨0, 0, 0, 0x03⟩]

/-- The square of `colorDistance` (Gallery.tsx).  The source computes
`Math.sqrt` of this sum; since the real square root is strictly monotone on
nonnegative arguments, the comparisons `dist < minDistance` of
`findClosestColor` coincide with comparisons of these squares, which keeps
the embedding exact and executable.  The claim theorems state distances
through `Real.sqrt` of this quantity. -/
def colorDistanceSq (r1 g1 b1 r2 g2 b2 : ℚ) : ℚ :=
  (r1 - r2) ^ 2 + (g1 - g2) ^ 2 + (b1 - b2) ^ 2

/-- Squared distance from an input pixel to a palette entry. -/
def distSqTo (r g b : ℚ) (c : PaletteColor) : ℚ :=
  colorDistanceSq r g b c.r c.g c.b

/-- The loop condition `dist < minDistance` of `findClosestColor`, where
`minDistance` starts at JS `Infinity` (embedded as `none`): every finite
distance compares below `Infinity`. -/
def ltMinDistance (dsq : ℚ) (minD : Option ℚ) : Bool :=
  match minD with
  | none => true
  | some m => decide (dsq < m)

/-- The `for (const color of palette)` loop of `findClosestColor`, carrying
`closest` and `minDistance` (squared, `none` = `Infinity`); the loop body's
`dist` is inlined as `distSqTo r g b c`. -/
def findClosestLoop (r g b : ℚ) (closest : PaletteColor) (minD : Option ℚ) :
    List PaletteColor → PaletteColor
  | [] => closest
  | c :: rest =>
    if ltMinDistance (distSqTo r g b c) minD then
      findClosestLoop r g b c (some (distSqTo r g b c)) rest
    else findClosestLoop r g b closest minD rest

/-- `findClosestColor` (Gallery.tsx): `closest` starts at `palette[0]`
(`none` when the palette is empty, where the source would yield
`undefined`), `minDistance` starts at `Infinity`, and the loop scans the
whole palette. -/
def findClosestColor (r g b : ℚ) (palette : List PaletteColor) : Option PaletteColor :=
  match palette with
  | [] => none
  | p0 :: _ => some (findClosestLoop r g b p0 none palette)

lemma findClosestLoop_cons (r g b : ℚ) (closest : PaletteColor) (minD : Option ℚ)
    (c : PaletteColor) (rest : List PaletteColor) :
    findClosestLoop r g b closest minD (c :: rest) =
      if ltMinDistance (distSqTo r g b c) minD then
        findClosestLoop r g b c (some (distSqTo r g b c)) rest
      else findClosestLoop r g b closest minD rest := rfl

lemma findClosestLoop_spec (r g b : ℚ) :
    ∀ (l : List PaletteColor) (best : PaletteColor),
      (findClosestLoop r g b best (some (distSqTo r g b best)) l = best ∧
        ∀ c ∈ l, distSqTo r g b best ≤ distSqTo r g b c) ∨
      (∃ l1 l2, l = l1 ++ findClosestLoop r g b best (some (distSqTo r g b best)) l :: l2 ∧
        distSqTo r g b (findClosestLoop r g b best (some (distSqTo r g b best)) l) <
          distSqTo r g b best ∧
        (∀ c ∈ l1, distSqTo r g b (findClosestLoop r g b best (some (distSqTo r g b best)) l) <
          distSqTo r g b c) ∧
        (∀ c ∈ l, distSqTo r g b (findClosestLoop r g b best (some (distSqTo r g b best)) l) ≤
          distSqTo r g b c)) := by
  intro l
  induction l with
  | nil =>
    intro best
    left
    exact ⟨rfl, by simp⟩
  | cons c rest ih =>
    intro best
    by_cases hlt : distSqTo r g b c < distSqTo r g b best
    · have hcond : ltMinDistance (distSqTo r g b c) (some (distSqTo r g b best)) = true := by
        simp [ltMinDistance, hlt]
      have hstep : findClosestLoop r g b best (some (distSqTo r g b best)) (c :: rest) =
          findClosestLoop r g b c (some (distSqTo r g b c)) rest := by
        rw [findClosestLoop_cons, hcond]
        simp
      rw [hstep]
      rcases ih c with ⟨heq, hmin⟩ | ⟨l1, l2, hsplit, hbest, hfirst, hmin⟩
      · right
        rw [heq]
        refine ⟨[], rest, rfl, hlt, by simp, ?_⟩
        intro e he
        rcases List.mem_cons.mp he with rfl | he'
        · exact le_refl _
        · exact hmin e he'
      · right
        refine ⟨c :: l1, l2, by rw [List.cons_append]; exact congrArg (List.cons c) hsplit,
          lt_trans hbest hlt, ?_, ?_⟩
        · intro e he
          rcases List.mem_cons.mp he with rfl | he'
          · exact hbest
          · exact hfirst e he'
        · intro e he
          rcases List.mem_cons.mp he with rfl | he'
          · exact le_of_lt hbest
          · exact hmin e he'
    · have hcond : ltMinDistance (distSqTo r g b c) (some (distSqTo r g b best)) = false := by
        simp [ltMinDistance, hlt]
      have hstep : findClosestLoop r g b best (some (distSqTo r g b best)) (c :: rest) =
          findClosestLoop r g b best (some (distSqTo r g b best)) rest := by
        rw [findClosestLoop_cons, hcond]
        simp
      rw [hstep]
      push_neg at hlt
      rcases ih best with ⟨heq, hmin⟩ | ⟨l1, l2, hsplit, hbest, hfirst, hmin⟩
      · left
        refine ⟨heq, ?_⟩
        intro e he
        rcases List.mem_cons.mp he with rfl | he'
        · exact hlt
        · exact hmin e he'
      · right
        refine ⟨c :: l1, l2, by rw [List.cons_append]; exact congrArg (List.cons c) hsplit,
          hbest, ?_, ?_⟩
        · intro e he
          rcases List.mem_cons.mp he with rfl | he'
          · exact lt_of_lt_of_le hbest hlt
          · exact hfirst e he'
        · intro e he
          rcases List.mem_cons.mp he with rfl | he'
          · exact le_trans (le_of_lt hbest) hlt
          · exact hmin e he'

lemma distSqTo_nonneg (r g b : ℚ) (c : PaletteColor) : 0 ≤ distSqTo r g b c := by
  unfold distSqTo colorDistanceSq
  positivity

lemma sqrt_dist_le {r g b : ℚ} {c e : PaletteColor}
    (h : distSqTo r g b c ≤ distSqTo r g b e) :
    Real.sqrt (distSqTo r g b c) ≤ Real.sqrt (distSqTo r g b e) :=
  Real.sqrt_le_sqrt (by exact_mod_cast h)

lemma sqrt_dist_lt {r g b : ℚ} {c e : PaletteColor}
    (h : distSqTo r g b c < distSqTo r g b e) :
    Real.sqrt (distSqTo r g b c) < Real.sqrt (distSqTo r g b e) :=
  Real.sqrt_lt_sqrt (by exact_mod_cast distSqTo_nonneg r g b c) (by exact_mod_cast h)

/-- C7: for every RGB triple and non-empty palette, `findClosestColor`
returns a palette entry whose Euclidean RGB distance to the input is ≤ the
distance of every other palette entry, with ties resolved in favor of the
entry appearing first in palette order (the returned entry is strictly
closer than every entry before it); in particular, for an input equal to an
exact palette color of `PALETTE_COLOR` (White, Yellow, Red, Black) or of
`PALETTE_BW` (White, Black), the return is that exact entry with zero
error. -/
theorem findClosestColor_nearest (r g b : ℚ) (palette : List PaletteColor)
    (p0 : PaletteColor) (rest : List PaletteColor) (hp : palette = p0 :: rest) :
    (∃ c l1 l2, findClosestColor r g b palette = some c ∧ palette = l1 ++ c :: l2 ∧
      (∀ e ∈ palette, Real.sqrt (distSqTo r g b c) ≤ Real.sqrt (distSqTo r g b e)) ∧
      (∀ e ∈ l1, Real.sqrt (distSqTo r g b c) < Real.sqrt (distSqTo r g b e))) ∧
    (∀ e ∈ PALETTE_COLOR,
      findClosestColor e.r e.g e.b PALETTE_COLOR = some e ∧
        Real.sqrt (distSqTo e.r e.g e.b e) = 0) ∧
    (∀ e ∈ PALETTE_BW,
      findClosestColor e.r e.g e.b PALETTE_BW = some e ∧
        Real.sqrt (distSqTo e.r e.g e.b e) = 0) := by
  subst hp
  refine ⟨?_, ?_, ?_⟩
  · have h0 : findClosestColor r g b (p0 :: rest) =
        some (findClosestLoop r g b p0 (some (distSqTo r g b p0)) rest) := by
      simp only [findClosestColor]
      rw [findClosestLoop_cons, show ltMinDistance (distSqTo r g b p0) none = true from rfl,
        if_pos rfl]
    rcases findClosestLoop_spec r g b rest p0 with ⟨heq, hmin⟩ |
      ⟨l1, l2, hsplit, hbest, hfirst, hmin⟩
    · refine ⟨p0, [], rest, by rw [h0, heq], rfl, ?_, by simp⟩
      intro e he
      rcases List.mem_cons.mp he with rfl | he'
      · exact le_refl _
      · exact sqrt_dist_le (hmin e he')
    · refine ⟨findClosestLoop r g b p0 (some (distSqTo r g b p0)) rest, p0 :: l1, l2,
        h0, by rw [List.cons_append]; exact congrArg (List.cons p0) hsplit, ?_, ?_⟩
      · intro e he
        rcases List.mem_cons.mp he with rfl | he'
        · exact sqrt_dist_le (le_of_lt hbest)
        · exact sqrt_dist_le (hmin e he')
      · intro e he
        rcases List.mem_cons.mp he with rfl | he'
        · exact sqrt_dist_lt hbest
        · exact sqrt_dist_lt (hfirst e he')
  · intro e he
    fin_cases he <;>
      exact ⟨by norm_num [findClosestColor, findClosestLoop, ltMinDistance, distSqTo,
          colorDistanceSq, PALETTE_COLOR],
        by norm_num [distSqTo, colorDistanceSq]⟩
  · intro e he
    fin_cases he <;>
      exact ⟨by norm_num [findClosestColor, findClosestLoop, ltMinDistance, distSqTo,
          colorDistanceSq, PALETTE_BW],
        by norm_num [distSqTo, colorDistanceSq]⟩

/-- Witness for C7 at the concrete input `(10, 20, 30)` and the two-entry
monochrome palette. -/
theorem findClosestColor_nearest_witness :
    (∃ c l1 l2, findClosestColor 10 20 30 PALETTE_BW = some c ∧
      PALETTE_BW = l1 ++ c :: l2 ∧
      (∀ e ∈ PALETTE_BW,
        Real.sqrt (distSqTo 10 20 30 c) ≤ Real.sqrt (distSqTo 10 20 30 e)) ∧
      (∀ e ∈ l1, Real.sqrt (distSqTo 10 20 30 c) < Real.sqrt (distSqTo 10 20 30 e))) ∧
    (∀ e ∈ PALETTE_COLOR,
      findClosestColor e.r e.g e.b PALETTE_COLOR = some e ∧
        Real.sqrt (distSqTo e.r e.g e.b e) = 0) ∧
    (∀ e ∈ PALETTE_BW,
      findClosestColor e.r e.g e.b PALETTE_BW = some e ∧
        Real.sqrt (distSqTo e.r e.g e.b e) = 0) :=
  findClosestColor_nearest 10 20 30 PALETTE_BW ⟨255, 255, 255, 0x00⟩ [⟨0, 0, 0, 0x03⟩] rfl

/-- Character class `[a-zA-Z0-9_-]` — the characters `sanitizeFilename`
keeps (Gallery.tsx). -/
def isValidChar (c : Char) : Bool :=
  ('a' <= c && c <= 'z') || ('A' <= c && c <= 'Z') || ('0' <= c && c <= '9') ||
    c == '_' || c == '-'

/-- Complement of the extension pattern's character class `[^/.]`. -/
def notExtChar (c : Char) : Bool := !(c == '.') && !(c == '/')

/-- The first step of `sanitizeFilename`: the regex replace that drops a
final `.` followed by one or more characters, none of which is `/` or `.`
(the extension), when such a suffix exists; scanning from the right. -/
def stripExt (s : List Char) : List Char :=
  match s.reverse.dropWhile notExtChar with
  | '.' :: restRev =>
    if (s.reverse.takeWhile notExtChar).isEmpty then s else restRev.reverse
  | _ => s

/-- One character of `sanitizeFilename`'s second replace: characters outside
`[a-zA-Z0-9_-]` become an underscore. -/
def replaceInvalid (c : Char) : Char := if isValidChar c then c else '_'

/-- `sanitizeFilename` (Gallery.tsx): strip the extension, replace invalid
characters, truncate to 24 characters (`substring(0, 24)`), and return
`"image"` when the result is empty (`clean \x7c\x7c 'image'`). -/
def sanitizeFilename (name : List Char) : List Char :=
  if ((stripExt name).map replaceInvalid).take 24 = [] then
    ['i', 'm', 'a', 'g', 'e']
  else ((stripExt name).map replaceInvalid).take 24

/-- C10: for every input string, `sanitizeFilename` returns a non-empty
string of length at most 24 whose characters all lie in `[a-zA-Z0-9_-]`;
when stripping the extension, replacing invalid characters and truncating
leaves the empty string, the result is the literal `"image"`. -/
theorem sanitizeFilename_spec (name : List Char) :
    sanitizeFilename name ≠ [] ∧
    (sanitizeFilename name).length <= 24 ∧
    (∀ c ∈ sanitizeFilename name, isValidChar c = true) ∧
    (((stripExt name).map replaceInvalid).take 24 = [] →
      sanitizeFilename name = ['i', 'm', 'a', 'g', 'e']) := by
  by_cases h : ((stripExt name).map replaceInvalid).take 24 = []
  · have e : sanitizeFilename name = ['i', 'm', 'a', 'g', 'e'] := by
      unfold sanitizeFilename
      rw [if_pos h]
    refine ⟨by rw [e]; simp, by rw [e]; simp, ?_, fun _ => e⟩
    rw [e]
    decide
  · have e : sanitizeFilename name = ((stripExt name).map replaceInvalid).take 24 := by
      unfold sanitizeFilename
      rw [if_neg h]
    refine ⟨by rw [e]; exact h, ?_, ?_, fun hh => absurd hh h⟩
    · rw [e]
      simp only [List.length_take]
      omega
    · intro c hc
      rw [e] at hc
      have hc2 : c ∈ (stripExt name).map replaceInvalid :=
        (List.take_sublist 24 _).subset hc
      rcases List.mem_map.mp hc2 with ⟨c0, _, rfl⟩
      unfold replaceInvalid
      by_cases hv : isValidChar c0
      · rw [if_pos hv]
        exact hv
      · rw [if_neg hv]
        decide

/-- `CHUNK_SIZE = 256` (bleService.ts `uploadImage`). -/
def CHUNK_SIZE : Nat := 256

/-- The chunking loop of `uploadImage`: `while (offset < data.length)` takes
`data.slice(offset, offset + CHUNK_SIZE)` and advances `offset` by the
chunk's length.  Embedded structurally with `fuel` bounding the number of
iterations; `fuel = data.length` always suffices since every iteration
consumes at least one byte. -/
def chunksGo : Nat → List Nat → List (List Nat)
  | 0, _ => []
  | _, [] => []
  | fuel + 1, data => data.take CHUNK_SIZE :: chunksGo fuel (data.drop CHUNK_SIZE)

/-- The list of chunks `uploadImage` writes for a payload. -/
def chunks (data : List Nat) : List (List Nat) := chunksGo data.length data

lemma chunksGo_nil (fuel : Nat) : chunksGo fuel [] = [] := by
  cases fuel <;> rfl

lemma chunksGo_join : ∀ (fuel : Nat) (d : List Nat), d.length <= fuel →
    (chunksGo fuel d).flatten = d := by
  intro fuel
  induction fuel with
  | zero =>
    intro d h
    have : d = [] := List.eq_nil_of_length_eq_zero (by omega)
    subst this
    rfl
  | succ f ih =>
    intro d h
    cases d with
    | nil => rfl
    | cons a t =>
      show ((a :: t).take CHUNK_SIZE :: chunksGo f ((a :: t).drop CHUNK_SIZE)).flatten =
        a :: t
      rw [List.flatten_cons, ih _ ?_]
      · exact List.take_append_drop _ _
      · simp only [List.length_drop, List.length_cons, CHUNK_SIZE]
        simp only [List.length_cons] at h
        omega

lemma chunksGo_mem_size : ∀ (fuel : Nat) (d : List Nat), d.length <= fuel →
    ∀ c ∈ chunksGo fuel d, c.length <= CHUNK_SIZE ∧ c ≠ [] := by
  intro fuel
  induction fuel with
  | zero =>
    intro d h c hc
    simp [chunksGo] at hc
  | succ f ih =>
    intro d h c hc
    cases d with
    | nil => simp [chunksGo] at hc
    | cons a t =>
      rcases List.mem_cons.mp hc with rfl | hc'
      · constructor
        · simp [List.length_take]
        · have : ((a :: t).take CHUNK_SIZE).length = min CHUNK_SIZE (t.length + 1) := by
            simp [List.length_take]
          intro hnil
          rw [hnil] at this
          simp [CHUNK_SIZE] at this
          omega
      · refine ih _ ?_ c hc'
        simp only [List.length_drop, List.length_cons, CHUNK_SIZE]
        simp only [List.length_cons] at h
        omega

lemma chunksGo_getD_size : ∀ (fuel : Nat) (d : List Nat), d.length <= fuel →
    ∀ i, i + 1 < (chunksGo fuel d).length →
      ((chunksGo fuel d).getD i []).length = CHUNK_SIZE := by
  intro fuel
  induction fuel with
  | zero =>
    intro d h i hi
    simp [chunksGo] at hi
  | succ f ih =>
    intro d h i hi
    cases d with
    | nil => simp [chunksGo] at hi
    | cons a t =>
      have hstep : chunksGo (f + 1) (a :: t) =
          (a :: t).take CHUNK_SIZE :: chunksGo f ((a :: t).drop CHUNK_SIZE) := rfl
      rw [hstep] at hi ⊢
      cases i with
      | zero =>
        have hrest : chunksGo f ((a :: t).drop CHUNK_SIZE) ≠ [] := by
          intro hnil
          rw [hnil] at hi
          simp at hi
        have hdrop : (a :: t).drop CHUNK_SIZE ≠ [] := by
          intro hnil
          apply hrest
          rw [hnil]
          exact chunksGo_nil f
        have hlen : CHUNK_SIZE < (a :: t).length := by
          by_contra hle
          push_neg at hle
          exact hdrop (List.drop_eq_nil_of_le hle)
        show ((a :: t).take CHUNK_SIZE).length = CHUNK_SIZE
        simp only [List.length_take]
        omega
      | succ j =>
        rw [List.getD_cons_succ]
        refine ih _ ?_ j (by simpa using Nat.lt_of_succ_lt_succ hi)
        simp only [List.length_drop, List.length_cons, CHUNK_SIZE]
        simp only [List.length_cons] at h
        omega

lemma chunksGo_length : ∀ (fuel : Nat) (d : List Nat), d.length <= fuel →
    (chunksGo fuel d).length = (d.length + 255) / 256 := by
  intro fuel
  induction fuel with
  | zero =>
    intro d h
    have : d = [] := List.eq_nil_of_length_eq_zero (by omega)
    subst this
    simp [chunksGo]
  | succ f ih =>
    intro d h
    cases d with
    | nil => simp [chunksGo]
    | cons a t =>
      show ((a :: t).take CHUNK_SIZE :: chunksGo f ((a :: t).drop CHUNK_SIZE)).length = _
      rw [List.length_cons, ih _ ?_]
      · simp only [List.length_drop, List.length_cons, CHUNK_SIZE]
        omega
      · simp only [List.length_drop, List.length_cons, CHUNK_SIZE]
        simp only [List.length_cons] at h
        omega

lemma chunksGo_getD : ∀ (fuel : Nat) (d : List Nat) (i : Nat), d.length <= fuel →
    (chunksGo fuel d).getD i [] = (d.drop (CHUNK_SIZE * i)).take CHUNK_SIZE := by
  intro fuel
  induction fuel with
  | zero =>
    intro d i h
    have : d = [] := List.eq_nil_of_length_eq_zero (by omega)
    subst this
    simp [chunksGo]
  | succ f ih =>
    intro d i h
    cases d with
    | nil => simp [chunksGo]
    | cons a t =>
      have hstep : chunksGo (f + 1) (a :: t) =
          (a :: t).take CHUNK_SIZE :: chunksGo f ((a :: t).drop CHUNK_SIZE) := rfl
      rw [hstep]
      cases i with
      | zero => simp
      | succ j =>
        rw [List.getD_cons_succ, ih _ j ?_]
        · rw [List.drop_drop, show CHUNK_SIZE * (j + 1) = CHUNK_SIZE + CHUNK_SIZE * j by ring]
        · simp only [List.length_drop, List.length_cons, CHUNK_SIZE]
          simp only [List.length_cons] at h
          omega

/-- C8: `uploadImage` splits the payload into consecutive chunks of exactly
`CHUNK_SIZE = 256` bytes with only the last chunk possibly shorter, the
concatenation of the chunks equals the payload, and for a 2600-byte payload
exactly 11 chunks are produced, the last of length 40 bytes. -/
theorem uploadImage_chunking (data : List Nat) :
    (chunks data).flatten = data ∧
    (∀ c ∈ chunks data, c.length <= CHUNK_SIZE ∧ c ≠ []) ∧
    (∀ i, i + 1 < (chunks data).length → ((chunks data).getD i []).length = CHUNK_SIZE) ∧
    CHUNK_SIZE = 256 ∧
    (chunks (List.replicate 2600 0)).length = 11 ∧
    ((chunks (List.replicate 2600 0)).getD 10 []).length = 40 := by
  refine ⟨chunksGo_join _ _ le_rfl, chunksGo_mem_size _ _ le_rfl,
    fun i hi => chunksGo_getD_size _ _ le_rfl i hi, rfl, ?_, ?_⟩
  · show (chunksGo (List.replicate 2600 (0 : Nat)).length (List.replicate 2600 0)).length = 11
    rw [chunksGo_length _ _ le_rfl]
    simp only [List.length_replicate]
  · show ((chunksGo (List.replicate 2600 (0 : Nat)).length
        (List.replicate 2600 0)).getD 10 []).length = 40
    rw [chunksGo_getD _ _ _ le_rfl]
    simp only [CHUNK_SIZE, List.drop_replicate, List.take_replicate, List.length_replicate]
    norm_num

/-- A JSON field value as `getSettings` may receive it after `JSON.parse`:
a number, a string, a boolean or null (bleService.ts). -/
inductive JVal where
  | jnum : ℚ → JVal
  | jstr : List Char → JVal
  | jbool : Bool → JVal
  | jnull : JVal
deriving DecidableEq

/-- JS strict equality `v === 1` for a parsed JSON field value. -/
def jsEqNumOne : JVal → Bool
  | .jnum q => q == 1
  | _ => false

/-- JS strict equality `v === '1'` for a parsed JSON field value. -/
def jsEqStrOne : JVal → Bool
  | .jstr s => s == ['1']
  | _ => false

/-- `data.slideshow === 1 || data.slideshow === '1'` — the boolean
normalization `getSettings` applies to the `slideshow` and `random` fields
(bleService.ts). -/
def normalizeBoolField (v : JVal) : Bool := jsEqNumOne v || jsEqStrOne v

/-- The raw parsed SETTINGS payload fields consumed by `getSettings`. -/
structure RawSettings where
  slideshow : JVal
  interval : JVal
  random : JVal
  current : JVal

/-- The two boolean fields of the `DeviceSettings` record `getSettings`
returns: `slideshow` and `random`, each normalized by
`normalizeBoolField`.  (`interval` goes through `parseInt` and `current`
through `data.current \x7c\x7c ''`; neither is a boolean field.) -/
def getSettingsBools (raw : RawSettings) : Bool × Bool :=
  (normalizeBoolField raw.slideshow, normalizeBoolField raw.random)

/-- C9: for every SETTINGS payload, the returned `slideshow` (and likewise
`random`) is true exactly when the payload field is the numeral `1` or the
string `"1"`, and false for any other value, whether the device encoded the
field as a number or as a string. -/
theorem getSettings_bool_normalization (raw : RawSettings) :
    ((getSettingsBools raw).1 = true ↔
      raw.slideshow = JVal.jnum 1 ∨ raw.slideshow = JVal.jstr ['1']) ∧
    ((getSettingsBools raw).2 = true ↔
      raw.random = JVal.jnum 1 ∨ raw.random = JVal.jstr ['1']) := by
  constructor
  · show normalizeBoolField raw.slideshow = true ↔ _
    cases hv : raw.slideshow <;>
      simp [normalizeBoolField, jsEqNumOne, jsEqStrOne]
  · show normalizeBoolField raw.random = true ↔ _
    cases hv : raw.random <;>
      simp [normalizeBoolField, jsEqNumOne, jsEqStrOne]

/-- `CMD.START_UPLOAD` (bleService.ts). -/
def CMD_START_UPLOAD : Nat := 0x10

/-- `CMD.FINISH_UPLOAD` (bleService.ts). -/
def CMD_FINISH_UPLOAD : Nat := 0x12

/-- `CMD.CANCEL_UPLOAD` (bleService.ts). -/
def CMD_CANCEL_UPLOAD : Nat := 0x13

/-- `MAX_RETRIES = 3` (bleService.ts `uploadImage`). -/
def MAX_RETRIES : Nat := 3

/-- An observable wire event of the upload path: an attempted chunk write
(`writeValue` on the image-data characteristic, tagged with the chunk index
and the 1-based attempt number), a `setTimeout` delay in milliseconds, or a
command frame sent on the command characteristic. -/
inductive BleEv where
  | write (chunkIdx : Nat) (attempt : Nat)
  | delay (ms : Nat)
  | cmd (opcode : Nat)
deriving DecidableEq, Repr

/-- The inner `while (retries < MAX_RETRIES && !success)` retry loop of
`uploadImage` for the chunk at index `ci`.  `fails a` says whether the
`a`-th write attempt (1-based) throws.  On a failure the loop increments
`retries`; if then `retries >= MAX_RETRIES` it rethrows the write error
(second component `false`), otherwise it waits `300 * retries` ms and tries
the same chunk again.  The structural `fuel` argument is
`MAX_RETRIES - retries`, which bounds the remaining iterations; the `fuel =
0` case is never reached from the real entry point. -/
def chunkRetryGo (fails : Nat → Bool) (ci : Nat) : Nat → Nat → List BleEv × Bool
  | _retries, 0 => ([], false)
  | retries, fuel + 1 =>
    if fails (retries + 1) = false then ([.write ci (retries + 1)], true)
    else if MAX_RETRIES <= retries + 1 then ([.write ci (retries + 1)], false)
    else
      ((.write ci (retries + 1)) :: (.delay (300 * (retries + 1))) ::
          (chunkRetryGo fails ci (retries + 1) fuel).1,
        (chunkRetryGo fails ci (retries + 1) fuel).2)

/-- One chunk's retry loop as entered by `uploadImage`: `retries = 0`,
`success = false`. -/
def chunkRetry (fails : Nat → Bool) (ci : Nat) : List BleEv × Bool :=
  chunkRetryGo fails ci 0 MAX_RETRIES

/-- The chunk-transfer phase of `uploadImage` over `remaining` chunks
starting at index `i`, followed by the 100 ms settle delay and FINISH.
`fails i a` says whether the `a`-th write attempt of chunk `i` throws, and
`cancelFails` whether the best-effort CANCEL send in the outer `catch`
block itself throws — the inner `catch` around it discards that error
either way and the original chunk write error is rethrown, which the model
mirrors by matching on the CANCEL send's outcome with identical arms.
START and FINISH are modelled as acknowledged with OK, as claim C3
conditions only on chunk write failures.  The Bool result is `true` when
the upload call returns normally, `false` when it throws. -/
def uploadGo (fails : Nat → Nat → Bool) (cancelFails : Bool) :
    Nat → Nat → List BleEv × Bool
  | 0, _ => ([.delay 100, .cmd CMD_FINISH_UPLOAD], true)
  | remaining + 1, i =>
    if (chunkRetry (fails i) i).2 then
      ((chunkRetry (fails i) i).1 ++
          (.delay 10) :: (uploadGo fails cancelFails remaining (i + 1)).1,
        (uploadGo fails cancelFails remaining (i + 1)).2)
    else
      match (if cancelFails then Except.error "Cancel failed" else Except.ok () :
          Except String Unit) with
      | .ok _ => ((chunkRetry (fails i) i).1 ++ [.cmd CMD_CANCEL_UPLOAD], false)
      | .error _ => ((chunkRetry (fails i) i).1 ++ [.cmd CMD_CANCEL_UPLOAD], false)

/-- The full queued upload operation of `uploadImage` for `n` chunks:
START, the chunk loop, then FINISH on success or CANCEL on failure. -/
def uploadModel (fails : Nat → Nat → Bool) (cancelFails : Bool) (n : Nat) :
    List BleEv × Bool :=
  ((.cmd CMD_START_UPLOAD) :: (uploadGo fails cancelFails n 0).1,
    (uploadGo fails cancelFails n 0).2)

/-- A chunk whose three write attempts do not all fail is sent successfully
within the retry budget. -/
def succeedsWithin (f : Nat → Bool) : Prop :=
  f 1 = false ∨ f 2 = false ∨ f 3 = false

lemma chunkRetry_first_ok (f : Nat → Bool) (ci : Nat) (h1 : f 1 = false) :
    chunkRetry f ci = ([.write ci 1], true) := by
  simp [chunkRetry, chunkRetryGo, MAX_RETRIES, h1]

lemma chunkRetry_second_ok (f : Nat → Bool) (ci : Nat)
    (h1 : f 1 = true) (h2 : f 2 = false) :
    chunkRetry f ci = ([.write ci 1, .delay 300, .write ci 2], true) := by
  simp [chunkRetry, chunkRetryGo, MAX_RETRIES, h1, h2]

lemma chunkRetry_third_ok (f : Nat → Bool) (ci : Nat)
    (h1 : f 1 = true) (h2 : f 2 = true) (h3 : f 3 = false) :
    chunkRetry f ci =
      ([.write ci 1, .delay 300, .write ci 2, .delay 600, .write ci 3], true) := by
  simp [chunkRetry, chunkRetryGo, MAX_RETRIES, h1, h2, h3]

lemma chunkRetry_all_fail (f : Nat → Bool) (ci : Nat)
    (h1 : f 1 = true) (h2 : f 2 = true) (h3 : f 3 = true) :
    chunkRetry f ci =
      ([.write ci 1, .delay 300, .write ci 2, .delay 600, .write ci 3], false) := by
  simp [chunkRetry, chunkRetryGo, MAX_RETRIES, h1, h2, h3]

lemma chunkRetry_ok_of_succeedsWithin (f : Nat → Bool) (ci : Nat)
    (h : succeedsWithin f) : (chunkRetry f ci).2 = true := by
  cases hf1 : f 1
  · rw [chunkRetry_first_ok f ci hf1]
  · cases hf2 : f 2
    · rw [chunkRetry_second_ok f ci hf1 hf2]
    · cases hf3 : f 3
      · rw [chunkRetry_third_ok f ci hf1 hf2 hf3]
      · rcases h with h | h | h <;> simp_all

lemma chunkRetry_no_cmd (f : Nat → Bool) (ci op : Nat) :
    ∀ (fuel retries : Nat), BleEv.cmd op ∉ (chunkRetryGo f ci retries fuel).1 := by
  intro fuel
  induction fuel with
  | zero => intro retries; simp [chunkRetryGo]
  | succ fl ih =>
    intro retries
    by_cases h1 : f (retries + 1) = false
    · simp [chunkRetryGo, h1]
    · by_cases h2 : MAX_RETRIES <= retries + 1
      · simp [chunkRetryGo, h1, h2]
      · simp [chunkRetryGo, h1, h2]
        exact ih (retries + 1)

lemma chunkRetry_count_cmd (f : Nat → Bool) (ci op : Nat) :
    (chunkRetry f ci).1.count (BleEv.cmd op) = 0 :=
  List.count_eq_zero.mpr (chunkRetry_no_cmd f ci op MAX_RETRIES 0)

lemma uploadGo_all_ok (fails : Nat → Nat → Bool) (cf : Bool) :
    ∀ (k i : Nat), (∀ j, j < k → succeedsWithin (fails (i + j))) →
      (uploadGo fails cf k i).2 = true ∧
      (uploadGo fails cf k i).1.count (BleEv.cmd CMD_CANCEL_UPLOAD) = 0 := by
  intro k
  induction k with
  | zero =>
    intro i _
    refine ⟨rfl, ?_⟩
    show ([BleEv.delay 100, BleEv.cmd CMD_FINISH_UPLOAD].count (BleEv.cmd CMD_CANCEL_UPLOAD)) = 0
    decide
  | succ k ih =>
    intro i h
    have hok : (chunkRetry (fails i) i).2 = true :=
      chunkRetry_ok_of_succeedsWithin _ _ (by simpa using h 0 (by omega))
    have hstep : uploadGo fails cf (k + 1) i =
        ((chunkRetry (fails i) i).1 ++
            (BleEv.delay 10) :: (uploadGo fails cf k (i + 1)).1,
          (uploadGo fails cf k (i + 1)).2) := by
      simp [uploadGo, hok]
    have ihs := ih (i + 1) (fun j hj => by
      have := h (j + 1) (by omega)
      rwa [show i + (j + 1) = i + 1 + j by ring] at this)
    rw [hstep]
    refine ⟨ihs.1, ?_⟩
    simp [List.count_append, List.count_cons, chunkRetry_count_cmd, ihs.2]

lemma uploadGo_fail (fails : Nat → Nat → Bool) (cf : Bool) :
    ∀ (k i m : Nat), m < k → (∀ j, j < m → succeedsWithin (fails (i + j))) →
      fails (i + m) 1 = true → fails (i + m) 2 = true → fails (i + m) 3 = true →
      (uploadGo fails cf k i).2 = false ∧
      (uploadGo fails cf k i).1.count (BleEv.cmd CMD_CANCEL_UPLOAD) = 1 := by
  intro k
  induction k with
  | zero => intro i m hm; omega
  | succ k ih =>
    intro i m hm hpre h1 h2 h3
    cases m with
    | zero =>
      simp only [Nat.add_zero] at h1 h2 h3
      have hbad : (chunkRetry (fails i) i).2 = false := by
        rw [chunkRetry_all_fail (fails i) i h1 h2 h3]
      have hstep : uploadGo fails cf (k + 1) i =
          ((chunkRetry (fails i) i).1 ++ [BleEv.cmd CMD_CANCEL_UPLOAD], false) := by
        cases cf <;> simp [uploadGo, hbad]
      rw [hstep]
      refine ⟨rfl, ?_⟩
      simp [List.count_append, chunkRetry_count_cmd]
    | succ m =>
      have hok : (chunkRetry (fails i) i).2 = true :=
        chunkRetry_ok_of_succeedsWithin _ _ (by simpa using hpre 0 (by omega))
      have hstep : uploadGo fails cf (k + 1) i =
          ((chunkRetry (fails i) i).1 ++
              (BleEv.delay 10) :: (uploadGo fails cf k (i + 1)).1,
            (uploadGo fails cf k (i + 1)).2) := by
        simp [uploadGo, hok]
      have ihs := ih (i + 1) m (by omega)
        (fun j hj => by
          have := hpre (j + 1) (by omega)
          rwa [show i + (j + 1) = i + 1 + j by ring] at this)
        (by rwa [show i + 1 + m = i + (m + 1) by ring])
        (by rwa [show i + 1 + m = i + (m + 1) by ring])
        (by rwa [show i + 1 + m = i + (m + 1) by ring])
      rw [hstep]
      refine ⟨ihs.1, ?_⟩
      simp [List.count_append, List.count_cons, chunkRetry_count_cmd, ihs.2]

/-- C3: during `uploadImage`, a failed chunk write is retried with backoff
delay `300 ms * retryAttempt`; a chunk whose write fails 3 consecutive
times propagates the error, exactly one CANCEL_UPLOAD command is sent
(whose own failure is swallowed — the result does not depend on
`cancelFails`), and the upload call fails; a chunk write failing on attempt
1 or 2 with a successful retry lets the upload proceed normally with no
CANCEL_UPLOAD sent. -/
theorem uploadImage_retry_backoff_cancel
    (fails : Nat → Nat → Bool) (cancelFails : Bool) (n : Nat) :
    (∀ (f : Nat → Bool) (ci : Nat), f 1 = true → f 2 = false →
      chunkRetry f ci = ([.write ci 1, .delay 300, .write ci 2], true)) ∧
    (∀ (f : Nat → Bool) (ci : Nat), f 1 = true → f 2 = true → f 3 = false →
      chunkRetry f ci =
        ([.write ci 1, .delay 300, .write ci 2, .delay 600, .write ci 3], true)) ∧
    (∀ (f : Nat → Bool) (ci : Nat), f 1 = true → f 2 = true → f 3 = true →
      chunkRetry f ci =
        ([.write ci 1, .delay 300, .write ci 2, .delay 600, .write ci 3], false)) ∧
    (∀ m, m < n → (∀ j, j < m → succeedsWithin (fails j)) →
      fails m 1 = true → fails m 2 = true → fails m 3 = true →
      (uploadModel fails cancelFails n).2 = false ∧
      (uploadModel fails cancelFails n).1.count (BleEv.cmd CMD_CANCEL_UPLOAD) = 1) ∧
    ((∀ j, j < n → succeedsWithin (fails j)) →
      (uploadModel fails cancelFails n).2 = true ∧
      (uploadModel fails cancelFails n).1.count (BleEv.cmd CMD_CANCEL_UPLOAD) = 0) := by
  refine ⟨chunkRetry_second_ok, chunkRetry_third_ok, chunkRetry_all_fail, ?_, ?_⟩
  · intro m hm hpre h1 h2 h3
    have hgo := uploadGo_fail fails cancelFails n 0 m hm
      (fun j hj => by simpa using hpre j hj) (by simpa using h1) (by simpa using h2)
      (by simpa using h3)
    refine ⟨hgo.1, ?_⟩
    show ((BleEv.cmd CMD_START_UPLOAD) ::
      (uploadGo fails cancelFails n 0).1).count (BleEv.cmd CMD_CANCEL_UPLOAD) = 1
    have hne : (BleEv.cmd CMD_START_UPLOAD == BleEv.cmd CMD_CANCEL_UPLOAD) = false := by
      decide
    rw [List.count_cons, hne]
    simp [hgo.2]
  · intro h
    have hgo := uploadGo_all_ok fails cancelFails n 0
      (fun j hj => by simpa using h j hj)
    refine ⟨hgo.1, ?_⟩
    show ((BleEv.cmd CMD_START_UPLOAD) ::
      (uploadGo fails cancelFails n 0).1).count (BleEv.cmd CMD_CANCEL_UPLOAD) = 0
    have hne : (BleEv.cmd CMD_START_UPLOAD == BleEv.cmd CMD_CANCEL_UPLOAD) = false := by
      decide
    rw [List.count_cons, hne]
    simp [hgo.2]

/-- An operation submitted to `queueOperation` (bleService.ts): an
identifier, the abstract wire events it emits while it runs, and the result
its promise settles with (`.ok` fulfilled, `.error e` rejected). -/
structure QOp where
  id : Nat
  events : List Nat
  result : Except String Unit

/-- JS `p.then(f)` on a settled promise `p`: `f` runs only when `p` is
fulfilled (first component: the events `f` emitted); a rejection propagates
past `f` without running it. -/
def promiseThen (p : Except String Unit)
    (f : Unit → List Nat × Except String Unit) : List Nat × Except String Unit :=
  match p with
  | .ok _ => f ()
  | .error e => ([], .error e)

/-- The `result.catch` with an empty handler that `queueOperation` installs
on the queue tail: the tail always settles fulfilled, whether or not the
operation rejected. -/
def promiseCatchUnit (p : Except String Unit) : Except String Unit :=
  match p with
  | .ok _ => .ok ()
  | .error _ => .ok ()

/-- `queueOperation` (bleService.ts): chains the operation onto the current
queue tail with `.then`, stores the caught result as the new tail, and
hands the uncaught result back to the caller.  Returns (caller result, new
queue tail, events the operation emitted). -/
def queueOperation (tail : Except String Unit) (op : QOp) :
    Except String Unit × Except String Unit × List Nat :=
  ((promiseThen tail fun _ => (op.events, op.result)).2,
    promiseCatchUnit (promiseThen tail fun _ => (op.events, op.result)).2,
    (promiseThen tail fun _ => (op.events, op.result)).1)

/-- Submitting a list of operations in submission order starting from queue
tail `tail`: returns (per-operation caller results in order, the
concatenated event trace). -/
def runQueueFrom (tail : Except String Unit) :
    List QOp → List (Except String Unit) × List Nat
  | [] => ([], [])
  | op :: rest =>
    ((queueOperation tail op).1 :: (runQueueFrom (queueOperation tail op).2.1 rest).1,
      (queueOperation tail op).2.2 ++ (runQueueFrom (queueOperation tail op).2.1 rest).2)

/-- The queue starts as `Promise.resolve()` (`operationQueue` field). -/
def runQueue (ops : List QOp) : List (Except String Unit) × List Nat :=
  runQueueFrom (.ok ()) ops

lemma runQueueFrom_ok (ops : List QOp) :
    runQueueFrom (.ok ()) ops = (ops.map QOp.result, (ops.map QOp.events).flatten) := by
  induction ops with
  | nil => rfl
  | cons op rest ih =>
    have hcatch : promiseCatchUnit op.result = .ok () := by
      cases op.result <;> rfl
    show ((queueOperation (.ok ()) op).1 ::
        (runQueueFrom (queueOperation (.ok ()) op).2.1 rest).1,
      (queueOperation (.ok ()) op).2.2 ++
        (runQueueFrom (queueOperation (.ok ()) op).2.1 rest).2) = _
    simp only [queueOperation, promiseThen, hcatch, ih, List.map_cons, List.flatten_cons]

/-- C5: every operation submitted to `queueOperation` runs (its events
appear in the global trace) exactly once, strictly in submission order and
without overlap — the trace is the concatenation of the per-operation event
blocks in submission order — and each operation's settled result is its own
(`ops.map QOp.result`): one operation's rejection neither changes a later
operation's result nor prevents it from running, because the queue tail is
the caught (always-fulfilled) promise, so each operation starts exactly
when all previously submitted ones have settled. -/
theorem queueOperation_fifo_isolated (ops : List QOp) :
    (runQueue ops).1 = ops.map QOp.result ∧
    (runQueue ops).2 = (ops.map QOp.events).flatten := by
  have h := runQueueFrom_ok ops
  exact ⟨by rw [show (runQueue ops).1 = (runQueueFrom (.ok ()) ops).1 from rfl, h],
    by rw [show (runQueue ops).2 = (runQueueFrom (.ok ()) ops).2 from rfl, h]⟩

/-- The `setTimeout` delay of `sendCommandInternal` (bleService.ts). -/
def RESPONSE_TIMEOUT_MS : Nat := 10000

/-- The response race of `sendCommandInternal`: `arrival` is the time in ms
(after the command write) at which a response frame reaches
`handleResponse`, `none` when no frame ever arrives.  A frame arriving
before the 10-second timer resolves the pending promise and clears
`responseResolver`; otherwise the timer finds the resolver still set,
clears it, and rejects with `'Command timeout'`.  Returns (the call's
settled result, whether a resolver is still pending afterwards). -/
def sendCommandModel (arrival : Option Nat) : Except String Unit × Bool :=
  match arrival with
  | some t =>
    if t < RESPONSE_TIMEOUT_MS then (.ok (), false)
    else (.error "Command timeout", false)
  | none => (.error "Command timeout", false)

/-- C4: a command whose response frame does not arrive within 10000 ms has
its pending exchange (`responseResolver`) cleared and fails with the
timeout error, and a subsequent operation enqueued afterwards still
executes normally — its events run and it settles with its own result, so
the operation queue is not stuck. -/
theorem sendCommand_timeout_queue_not_stuck (arrival : Option Nat) (op2 : QOp)
    (h : ∀ t, arrival = some t → RESPONSE_TIMEOUT_MS <= t) :
    sendCommandModel arrival = (.error "Command timeout", false) ∧
    (runQueue [⟨0, [], (sendCommandModel arrival).1⟩, op2]).1 =
      [.error "Command timeout", op2.result] ∧
    (runQueue [⟨0, [], (sendCommandModel arrival).1⟩, op2]).2 = op2.events := by
  have h1 : sendCommandModel arrival = (.error "Command timeout", false) := by
    cases arrival with
    | none => rfl
    | some t =>
      have ht := h t rfl
      simp only [RESPONSE_TIMEOUT_MS] at ht
      simp only [sendCommandModel, RESPONSE_TIMEOUT_MS]
      rw [if_neg (by omega)]
  have h2 := runQueueFrom_ok [⟨0, [], (sendCommandModel arrival).1⟩, op2]
  refine ⟨h1, ?_, ?_⟩
  · rw [show (runQueue [⟨0, [], (sendCommandModel arrival).1⟩, op2]).1 =
      (runQueueFrom (.ok ()) [⟨0, [], (sendCommandModel arrival).1⟩, op2]).1 from rfl, h2]
    simp [h1]
  · rw [show (runQueue [⟨0, [], (sendCommandModel arrival).1⟩, op2]).2 =
      (runQueueFrom (.ok ()) [⟨0, [], (sendCommandModel arrival).1⟩, op2]).2 from rfl, h2]
    simp

/-- Witness for C4: no response ever arrives, and the subsequent operation
is a fulfilled one emitting event `7`. -/
theorem sendCommand_timeout_witness :
    sendCommandModel none = (.error "Command timeout", false) ∧
    (runQueue [⟨0, [], (sendCommandModel none).1⟩, ⟨1, [7], .ok ()⟩]).1 =
      [.error "Command timeout", Except.ok ()] ∧
    (runQueue [⟨0, [], (sendCommandModel none).1⟩, ⟨1, [7], .ok ()⟩]).2 = [7] :=
  sendCommand_timeout_queue_not_stuck none ⟨1, [7], .ok ()⟩
    (fun t ht => by cases ht)

/-- The client state relevant to disconnection: the `useBLE` hook's
device-derived data (`deviceInfo`, `images`, `settings`) and whether the
service holds a pending `responseResolver`. -/
structure AppState where
  deviceInfo : Option Nat
  images : List String
  settings : Option Nat
  resolverPending : Bool
deriving DecidableEq, Repr

/-- The `gattserverdisconnected` handling: the listener registered in
`connect` calls `notifyConnectionChange(false)`, whose sole state-bearing
subscriber is the `useBLE` effect that sets `deviceInfo` to null, `images`
to `[]` and `settings` to null.  No code on this path touches
`responseResolver`: it is cleared only by `handleResponse` or by the
10-second timer inside `sendCommandInternal`. -/
def onDisconnected (s : AppState) : AppState :=
  { s with deviceInfo := none, images := [], settings := none }

/-- C6 counterexample: at a state with a pending exchange, the disconnect
handling resets the device-derived state but leaves `resolverPending`
`true` — the pending exchange is not failed immediately, contradicting the
claim's fast-fail requirement. -/
theorem disconnect_leaves_exchange_pending :
    onDisconnected ⟨some 1, ["a"], some 2, true⟩ = ⟨none, [], none, true⟩ ∧
    (onDisconnected ⟨some 1, ["a"], some 2, true⟩).resolverPending ≠ false := by
  constructor
  · rfl
  · simp [onDisconnected]

/-- C6 (amended): when the transport signals disconnection, all local
device-derived state (device info, image list, settings) is reset, but a
pending exchange is not failed immediately: `responseResolver` is left
untouched, and the pending call fails only through its 10-second timeout
(`sendCommandModel none` rejects with the timeout error and clears the
resolver). -/
theorem disconnect_resets_state_amended (s : AppState) :
    (onDisconnected s).deviceInfo = none ∧
    (onDisconnected s).images = [] ∧
    (onDisconnected s).settings = none ∧
    (onDisconnected s).resolverPending = s.resolverPending ∧
    sendCommandModel none = (.error "Command timeout", false) :=
  ⟨rfl, rfl, rfl, rfl, rfl⟩

end NdwApp
